import Mathlib

/-!
Verification of the Stock-Analysis pipeline (DataProvider / MetricsEngine /
Formatter) against its natural-language specification.

The Python source (`src/utils.py`, `src/stock_analyzer.py`) is shallowly
embedded below: prices and all numeric values are rationals (`ℚ`), pandas
NaN positions arising from insufficient rolling windows are `Option.none`,
pandas Series become `List ℚ`, and the external Yahoo-Finance responses
become explicit response records. Square roots (used by the volatility /
Sharpe / Bollinger formulas) are the real `Real.sqrt` applied to rational
intermediate values. Where the code can divide by zero (the RSI's
`gain/loss` and the market summary's `change/previous`), numpy/pandas float
semantics apply — `x/0` is `±inf` for `x ≠ 0` and NaN for `x = 0`, with no
exception — so those results live in `Fl`, an explicit
rational-or-artifact value type. -/

set_option autoImplicit false

namespace StockAnalysis

/-! ### Formatter & validator (`src/utils.py`) -/

/-- One uppercase ASCII letter, `A`–`Z` (the regex character class `[A-Z]`). -/
def isUpperAlpha (c : Char) : Bool := 'A' ≤ c && c ≤ 'Z'

/-- Python `str.strip()`: drop leading and trailing whitespace characters. -/
def pyStrip (cs : List Char) : List Char :=
  ((cs.dropWhile Char.isWhitespace).reverse.dropWhile Char.isWhitespace).reverse

/-- Python `str.upper()` on the character list. -/
def pyUpper (cs : List Char) : List Char := cs.map Char.toUpper

/-- Executable matcher for the anchored regex `^[A-Z]{1,5}(\.[A-Z]{1,2})?$`
from `validate_symbol` (`src/utils.py` line 24): a maximal leading run of
uppercase letters of length 1–5, optionally followed by a dot and 1–2
uppercase letters. -/
def matchesSymbolPattern (cs : List Char) : Bool :=
  let head := cs.takeWhile isUpperAlpha
  let rest := cs.dropWhile isUpperAlpha
  decide (1 ≤ head.length) && decide (head.length ≤ 5) &&
    (rest.isEmpty ||
      (rest.head? == some '.' && rest.tail.all isUpperAlpha &&
        decide (1 ≤ rest.tail.length) && decide (rest.tail.length ≤ 2)))

/-- `validate_symbol` (`src/utils.py` lines 6–26): reject falsy input, strip
whitespace, uppercase, then match the regex; the trailing `len(symbol) >= 1`
conjunct of the source is kept verbatim. -/
def validate_symbol (symbol : String) : Bool :=
  if symbol.data = [] then false
  else
    let s := pyUpper (pyStrip symbol.data)
    matchesSymbolPattern s && decide (1 ≤ s.length)

/-- Declarative reading of the regex `^[A-Z]{1,5}(\.[A-Z]{1,2})?$`, written
from the spec's words: the string splits into a group of 1–5 uppercase
letters followed by an optional dot-plus-1–2-uppercase-letters suffix. -/
def SymbolRegexMatches (cs : List Char) : Prop :=
  ∃ a b : List Char, cs = a ++ b ∧ 1 ≤ a.length ∧ a.length ≤ 5 ∧
    (∀ c ∈ a, isUpperAlpha c = true) ∧
    (b = [] ∨ ∃ t : List Char, b = '.' :: t ∧ 1 ≤ t.length ∧ t.length ≤ 2 ∧
      ∀ c ∈ t, isUpperAlpha c = true)

/-- A Python value reaching `format_currency`: `None`, float NaN, or a number
(modelled as a rational). -/
inductive PyVal where
  | none : PyVal
  | nan : PyVal
  | num : ℚ → PyVal
deriving DecidableEq

/-- Round to the nearest integer, ties to even — the rounding used by
Python's fixed-point float formatting `f"{v:.2f}"`. -/
def roundHalfEven (q : ℚ) : ℤ :=
  let f : ℤ := q.num / q.den
  let r : ℚ := q - f
  if r < 1/2 then f
  else if 1/2 < r then f + 1
  else if f % 2 = 0 then f else f + 1

/-- The two fractional digits `dd` of a fixed-point rendering, `m < 100`. -/
def twoDigitStr (m : ℕ) : String :=
  String.mk [Char.ofNat (48 + m / 10), Char.ofNat (48 + m % 10)]

/-- Python `f"{v:.2f}"`: fixed-point rendering of a number with exactly two
decimal places. -/
def formatFix2 (q : ℚ) : String :=
  let n : ℤ := roundHalfEven (q * 100)
  let sign : String := if n < 0 then "-" else ""
  let m : ℕ := n.natAbs
  sign ++ toString (m / 100) ++ "." ++ twoDigitStr (m % 100)

/-- `format_currency` (`src/utils.py` lines 28–53): `None`/NaN give `"N/A"`,
otherwise the value is scaled by magnitude (≥ 1e9 → `B`, ≥ 1e6 → `M`,
≥ 1e3 → `K`, else unscaled) and rendered with two decimals after a `$`. -/
def format_currency (value : PyVal) : String :=
  match value with
  | .none => "N/A"
  | .nan => "N/A"
  | .num v =>
    if 1000000000 ≤ |v| then "$" ++ formatFix2 (v / 1000000000) ++ "B"
    else if 1000000 ≤ |v| then "$" ++ formatFix2 (v / 1000000) ++ "M"
    else if 1000 ≤ |v| then "$" ++ formatFix2 (v / 1000) ++ "K"
    else "$" ++ formatFix2 v

/-! ### MetricsEngine: rolling-window primitives -/

/-- pandas `Series.rolling(window=w).mean()` at 0-based index `i`: undefined
(`none`, pandas NaN) while fewer than `w` points are available, otherwise the
arithmetic mean of the trailing `w` values. -/
def rollingMean (xs : List ℚ) (w : ℕ) (i : ℕ) : Option ℚ :=
  if i + 1 < w ∨ xs.length ≤ i then none
  else some (((xs.drop (i + 1 - w)).take w).sum / w)

/-- pandas `Series.rolling(window=w).std()` squared, i.e. the trailing sample
variance (denominator `w - 1`, pandas' default `ddof=1`) at index `i`. -/
def rollingVariance (xs : List ℚ) (w : ℕ) (i : ℕ) : Option ℚ :=
  if i + 1 < w ∨ xs.length ≤ i ∨ w < 2 then none
  else
    let s := (xs.drop (i + 1 - w)).take w
    let m := s.sum / w
    some ((s.map (fun x => (x - m) ^ 2)).sum / (w - 1))

/-- pandas `Series.rolling(window=w).std()` at index `i`: the square root of
the trailing sample variance. -/
noncomputable def rollingStd (xs : List ℚ) (w : ℕ) (i : ℕ) : Option ℝ :=
  (rollingVariance xs w i).map (fun v => Real.sqrt (v : ℝ))

/-! ### MetricsEngine: trend classification (`src/utils.py` lines 213–241) -/

/-- `determine_trend(prices, window)`: `"Insufficient Data"` for fewer than
`window` points, otherwise compare the last rolling-mean value
(`ma.iloc[-1]`) against the one half a window back (`ma.iloc[-window//2]`,
i.e. 0-based index `length - ceil(window/2)`); NaN at either spot also gives
`"Insufficient Data"`, and the percent change is thresholded at ±2. -/
def determine_trend (prices : List ℚ) (window : ℕ) : String :=
  if prices.length < window then "Insufficient Data"
  else
    match rollingMean prices window (prices.length - 1),
          rollingMean prices window (prices.length - (window + 1) / 2) with
    | some current_ma, some previous_ma =>
      let change_pct := (current_ma - previous_ma) / previous_ma * 100
      if 2 < change_pct then "Upward"
      else if change_pct < -2 then "Downward"
      else "Sideways"
    | _, _ => "Insufficient Data"

/-! ### MetricsEngine: summary statistics (`src/utils.py` lines 104–172) -/

/-- `calculate_returns` (`src/utils.py` lines 104–117):
`prices.pct_change().dropna()` — day-over-day simple returns, the undefined
first entry dropped; an empty input gives an empty series. -/
def calculate_returns (prices : List ℚ) : List ℚ :=
  match prices with
  | [] => []
  | _ => (prices.zip prices.tail).map (fun pq => (pq.2 - pq.1) / pq.1)

/-- pandas `Series.std()` squared: sample variance with `ddof=1`; NaN
(`none`) for fewer than two observations. -/
def sampleVariance (xs : List ℚ) : Option ℚ :=
  if xs.length < 2 then none
  else
    let m := xs.sum / xs.length
    some ((xs.map (fun x => (x - m) ^ 2)).sum / (xs.length - 1))

/-- `calculate_volatility` (`src/utils.py` lines 119–133): NaN for an empty
returns series, otherwise `returns.std() * sqrt(periods)`; the standard
deviation itself is NaN for a single observation. -/
noncomputable def calculate_volatility (returns : List ℚ) (periods : ℕ) : Option ℝ :=
  match returns with
  | [] => none
  | _ => (sampleVariance returns).map
      (fun v => Real.sqrt (v : ℝ) * Real.sqrt (periods : ℝ))

/-- `calculate_sharpe_ratio` (`src/utils.py` lines 135–151): NaN for an empty
returns series, otherwise `mean(returns - rf/periods) / std(returns) *
sqrt(periods)`; the standard deviation is NaN for a single observation. -/
noncomputable def calculate_sharpe_ratio (returns : List ℚ) (rf : ℚ) (periods : ℕ) :
    Option ℝ :=
  match returns with
  | [] => none
  | _ =>
    let excess := returns.map (fun r => r - rf / periods)
    (sampleVariance returns).map
      (fun v => ((excess.sum / excess.length : ℚ) : ℝ) / Real.sqrt (v : ℝ)
        * Real.sqrt (periods : ℝ))

/-- `prices.expanding().max()` from a running maximum `m`: element-wise
maximum of each value with everything before it (and `m`). -/
def expandingMaxFrom (m : ℚ) : List ℚ → List ℚ
  | [] => []
  | p :: rest => max m p :: expandingMaxFrom (max m p) rest

/-- `prices.expanding().max()`: the running maximum series. -/
def expandingMax : List ℚ → List ℚ
  | [] => []
  | p :: rest => p :: expandingMaxFrom p rest

/-- `calculate_max_drawdown` (`src/utils.py` lines 153–172): NaN for an empty
series, otherwise the minimum of `(prices - running_max) / running_max`. -/
def calculate_max_drawdown (prices : List ℚ) : Option ℚ :=
  match prices with
  | [] => none
  | _ => ((prices.zip (expandingMax prices)).map
      (fun pm => (pm.1 - pm.2) / pm.2)).min?

/-! ### IEEE float division artifacts -/

/-- A float value produced from finite rational operands: either a finite
rational or one of the division-by-zero artifacts NaN, `+inf`, `-inf`. -/
inductive Fl where
  | nan : Fl
  | inf : Fl
  | ninf : Fl
  | val : ℚ → Fl
deriving DecidableEq

/-- numpy/pandas float division `a / b` of finite operands, `b` possibly
(positive) zero: `0/0` is NaN, `x/0` is `±inf` by the sign of `x`, and no
exception is ever raised. -/
def flDiv (a b : ℚ) : Fl :=
  if b = 0 then
    if a = 0 then Fl.nan else if 0 < a then Fl.inf else Fl.ninf
  else Fl.val (a / b)

/-- Float multiplication of a division result by the positive literal `100`
(as in `(change / previous) * 100`): artifacts are preserved. -/
def flMul100 : Fl → Fl
  | Fl.nan => Fl.nan
  | Fl.inf => Fl.inf
  | Fl.ninf => Fl.ninf
  | Fl.val q => Fl.val (q * 100)

/-! ### MetricsEngine: RSI (`src/stock_analyzer.py` lines 124–129) -/

/-- `history['Close'].diff()` at index `i`: NaN at the first position,
otherwise the difference with the previous close. -/
def diffAt (closes : List ℚ) (i : ℕ) : Option ℚ :=
  if i = 0 ∨ closes.length ≤ i then none
  else some (closes.getD i 0 - closes.getD (i - 1) 0)

/-- `delta.where(delta > 0, 0)` at index `i`: the positive part of the daily
change; the NaN first difference compares false and becomes `0`. -/
def gainAt (closes : List ℚ) (i : ℕ) : ℚ :=
  match diffAt closes i with
  | Option.none => 0
  | Option.some d => if 0 < d then d else 0

/-- `(-delta.where(delta < 0, 0))` at index `i`: the magnitude of the daily
loss; the NaN first difference compares false and becomes `0`. -/
def lossAt (closes : List ℚ) (i : ℕ) : ℚ :=
  match diffAt closes i with
  | Option.none => 0
  | Option.some d => if d < 0 then -d else 0

/-- `gain.rolling(window=14).mean()` at index `i`. -/
def avgGainAt (closes : List ℚ) (i : ℕ) : Option ℚ :=
  if i + 1 < 14 ∨ closes.length ≤ i then none
  else some (((List.range 14).map (fun k => gainAt closes (i - 13 + k))).sum / 14)

/-- `loss.rolling(window=14).mean()` at index `i`. -/
def avgLossAt (closes : List ℚ) (i : ℕ) : Option ℚ :=
  if i + 1 < 14 ∨ closes.length ≤ i then none
  else some (((List.range 14).map (fun k => lossAt closes (i - 13 + k))).sum / 14)

/-- `rs = gain / loss` at index `i`: the relative strength, a float Series
division. Where the rolling means are not yet defined the entry is NaN;
where the average loss is zero the pandas division yields `+inf` for a
positive average gain and NaN for the flat `0/0` window. -/
def rsAt (closes : List ℚ) (i : ℕ) : Fl :=
  match avgGainAt closes i, avgLossAt closes i with
  | Option.some g, Option.some l => flDiv g l
  | _, _ => Fl.nan

/-- `100 - 100 / (1 + rs)` under float semantics: `1 + (±inf) = ±inf` and
`100 / (±inf) = ∓0`, so both infinities collapse to the defined value `100`;
NaN propagates; a finite `rs = -1` would divide `100` by zero (unreachable
for the RSI's nonnegative `rs`, kept for faithfulness). -/
def rsiOf : Fl → Fl
  | Fl.nan => Fl.nan
  | Fl.inf => Fl.val 100
  | Fl.ninf => Fl.val 100
  | Fl.val r => if 1 + r = 0 then Fl.ninf else Fl.val (100 - 100 / (1 + r))

/-- `RSI = 100 - 100 / (1 + rs)` at index `i`. -/
def rsiAt (closes : List ℚ) (i : ℕ) : Fl :=
  rsiOf (rsAt closes i)

/-- Fourteen strictly rising closes: a 14-day window with gains and no
losing day. -/
def closes14 : List ℚ := [1, 2, 3, 4, 5, 6, 7, 8, 9, 10, 11, 12, 13, 14]

/-- Fourteen constant closes: the entirely flat 14-day window. -/
def flat14 : List ℚ := [5, 5, 5, 5, 5, 5, 5, 5, 5, 5, 5, 5, 5, 5]

/-! ### MetricsEngine: Bollinger bands (`src/stock_analyzer.py` lines 131–135) -/

/-- `Bollinger_Upper = SMA_20 + std_20 * 2` at index `i`. -/
noncomputable def bollingerUpper (closes : List ℚ) (i : ℕ) : Option ℝ :=
  match rollingMean closes 20 i, rollingStd closes 20 i with
  | Option.some m, Option.some s => some ((m : ℝ) + s * 2)
  | _, _ => none

/-- `Bollinger_Lower = SMA_20 - std_20 * 2` at index `i`. -/
noncomputable def bollingerLower (closes : List ℚ) (i : ℕ) : Option ℝ :=
  match rollingMean closes 20 i, rollingStd closes 20 i with
  | Option.some m, Option.some s => some ((m : ℝ) - s * 2)
  | _, _ => none

/-! ### DataProvider (`src/stock_analyzer.py`) -/

/-- What the Yahoo-Finance source does for one `get_stock_data` query:
whether any step inside the `try` block raises, which keys `ticker.info`
carries (an empty list models a falsy/absent info dict), and the historical
close series (`ticker.history(period=period)`). -/
structure SourceResponse where
  raises : Bool
  infoKeys : List String
  history : List ℚ
deriving DecidableEq

/-- The bundle `get_stock_data` returns on success. -/
structure StockBundle where
  infoKeys : List String
  history : List ℚ
  symbol : String
deriving DecidableEq

/-- `StockAnalyzer.get_stock_data` (`src/stock_analyzer.py` lines 12–52):
`None` when the query raises, when the info dict is falsy or lacks a
`'symbol'` key, or when the history is empty; otherwise the bundle with the
uppercased symbol. -/
def get_stock_data (resp : SourceResponse) (symbol : String) : Option StockBundle :=
  if resp.raises then none
  else if resp.infoKeys.isEmpty ∨ "symbol" ∉ resp.infoKeys then none
  else if resp.history.isEmpty then none
  else some ⟨resp.infoKeys, resp.history, String.mk (pyUpper symbol.data)⟩

/-- What the source does for one market-index query inside
`get_market_summary`: whether `ticker.history(period="2d")` raises, and the
close series it returns. -/
structure IndexResponse where
  raises : Bool
  hist : List ℚ
deriving DecidableEq

/-- One entry of the market summary: current close, day-over-day change and
percent change (a float division result, NaN/±inf when the previous close is
zero). -/
structure IndexEntry where
  current : ℚ
  change : ℚ
  change_pct : Fl
deriving DecidableEq

/-- The loop body of `get_market_summary` (`src/stock_analyzer.py` lines
181–199) for one index: `none` when the query raises (the `except` clause
`continue`s) or the history is empty (the `if not hist.empty` guard);
otherwise current close `iloc[-1]`, previous close `iloc[-2]` when more than
one row exists else the current close, and the derived change and percent
change. -/
def indexSummary (r : IndexResponse) : Option IndexEntry :=
  if r.raises then none
  else if r.hist.isEmpty then none
  else
    let current := r.hist.getLastD 0
    let previous := if 1 < r.hist.length then r.hist.getD (r.hist.length - 2) 0 else current
    let change := current - previous
    some ⟨current, change, flMul100 (flDiv change previous)⟩

/-- The fixed table of market indices (`src/stock_analyzer.py` lines 172–177). -/
def marketIndices : List (String × String) :=
  [("S&P 500", "^GSPC"), ("Dow Jones", "^DJI"),
   ("NASDAQ", "^IXIC"), ("Russell 2000", "^RUT")]

/-- The `for name, symbol in indices.items()` loop of `get_market_summary`:
each index whose query succeeds contributes its entry, a failing index is
skipped. -/
def marketLoop (env : String → IndexResponse) :
    List (String × String) → List (String × IndexEntry)
  | [] => []
  | (name, sym) :: rest =>
    match indexSummary (env sym) with
    | Option.none => marketLoop env rest
    | Option.some e => (name, e) :: marketLoop env rest

/-- `StockAnalyzer.get_market_summary` (`src/stock_analyzer.py` lines
169–201) run against a source behaviour `env`. -/
def get_market_summary (env : String → IndexResponse) : List (String × IndexEntry) :=
  marketLoop env marketIndices

/-! ### Helper lemmas -/

lemma marketLoop_lookup_not_mem (env : String → IndexResponse) (name : String) :
    ∀ l : List (String × String), name ∉ l.map Prod.fst →
      (marketLoop env l).lookup name = none := by
  intro l
  induction l with
  | nil => intro _; simp [marketLoop]
  | cons hd tl ih =>
    intro h
    obtain ⟨n, s⟩ := hd
    simp only [List.map_cons, List.mem_cons, not_or] at h
    cases hs : indexSummary (env s) with
    | none => simpa [marketLoop, hs] using ih h.2
    | some e =>
      simp only [marketLoop, hs, List.lookup]
      have : (name == n) = false := beq_false_of_ne h.1
      simpa [this] using ih h.2

lemma marketLoop_lookup_eq (env : String → IndexResponse) (name sym : String) :
    ∀ l : List (String × String), (l.map Prod.fst).Nodup → (name, sym) ∈ l →
      (marketLoop env l).lookup name = indexSummary (env sym) := by
  intro l
  induction l with
  | nil => intro _ h; simp at h
  | cons hd tl ih =>
    intro hnd hmem
    obtain ⟨n, s⟩ := hd
    simp only [List.map_cons, List.nodup_cons] at hnd
    rcases List.mem_cons.mp hmem with heq | htl
    · obtain ⟨rfl, rfl⟩ := Prod.mk.injEq .. ▸ heq
      cases hs : indexSummary (env sym) with
      | none =>
        simp only [marketLoop, hs]
        exact marketLoop_lookup_not_mem env name tl hnd.1
      | some e => simp [marketLoop, hs, List.lookup]
    · have hne : name ≠ n := by
        intro h
        exact hnd.1 (h ▸ List.mem_map_of_mem Prod.fst htl)
      cases hs : indexSummary (env s) with
      | none => simpa [marketLoop, hs] using ih hnd.2 htl
      | some e =>
        simp only [marketLoop, hs, List.lookup]
        have : (name == n) = false := beq_false_of_ne hne
        simpa [this] using ih hnd.2 htl

lemma marketLoop_mem_of_some (env : String → IndexResponse) (name sym : String)
    (e : IndexEntry) :
    ∀ l : List (String × String), (name, sym) ∈ l → indexSummary (env sym) = some e →
      (name, e) ∈ marketLoop env l := by
  intro l
  induction l with
  | nil => intro h _; simp at h
  | cons hd tl ih =>
    intro hmem hs
    obtain ⟨n, s⟩ := hd
    rcases List.mem_cons.mp hmem with heq | htl
    · obtain ⟨rfl, rfl⟩ := Prod.mk.injEq .. ▸ heq
      simp [marketLoop, hs]
    · cases hs' : indexSummary (env s) with
      | none => simpa [marketLoop, hs'] using ih htl hs
      | some e' => simpa [marketLoop, hs'] using Or.inr (ih htl hs)

lemma marketLoop_keys_subset (env : String → IndexResponse) (x : String) :
    ∀ l : List (String × String), x ∈ (marketLoop env l).map Prod.fst →
      x ∈ l.map Prod.fst := by
  intro l
  induction l with
  | nil => intro hx; simp [marketLoop] at hx
  | cons hd tl ih =>
    intro hx
    obtain ⟨n, s⟩ := hd
    cases hh : indexSummary (env s) with
    | none =>
      simp only [marketLoop, hh] at hx
      exact List.mem_cons_of_mem n (ih hx)
    | some e =>
      simp only [marketLoop, hh, List.map_cons, List.mem_cons] at hx ⊢
      rcases hx with h1 | h2
      · exact Or.inl h1
      · exact Or.inr (ih h2)

lemma marketLoop_not_mem_of_none (env : String → IndexResponse) (name sym : String)
    (e : IndexEntry) :
    ∀ l : List (String × String), (l.map Prod.fst).Nodup → (name, sym) ∈ l →
      indexSummary (env sym) = none → (name, e) ∉ marketLoop env l := by
  intro l
  induction l with
  | nil => intro _ h _; simp at h
  | cons hd tl ih =>
    intro hnd hmem hs
    obtain ⟨n, s⟩ := hd
    simp only [List.map_cons, List.nodup_cons] at hnd
    rcases List.mem_cons.mp hmem with heq | htl
    · obtain ⟨rfl, rfl⟩ := Prod.mk.injEq .. ▸ heq
      simp only [marketLoop, hs]
      intro hcontra
      exact hnd.1 (marketLoop_keys_subset env name tl
        (List.mem_map_of_mem Prod.fst hcontra))
    · have hne : name ≠ n := by
        intro h
        exact hnd.1 (h ▸ List.mem_map_of_mem Prod.fst htl)
      cases hs' : indexSummary (env s) with
      | none => simpa [marketLoop, hs'] using ih hnd.2 htl hs
      | some e' =>
        simp only [marketLoop, hs', List.mem_cons]
        rintro (heq' | hmem')
        · exact hne (congrArg Prod.fst heq')
        · exact ih hnd.2 htl hs hmem'

/-! ### Claim theorems -/

/-- C2: `get_stock_data` returns the single uniform `None` outcome when the
query raises, when the source's info is empty or lacks a `'symbol'` key, and
when the historical series is empty — all three causes are indistinguishable
from the return value. -/
theorem get_stock_data_notFound_uniform (resp : SourceResponse) (symbol : String) :
    (resp.raises = true → get_stock_data resp symbol = none) ∧
    (resp.infoKeys = [] → get_stock_data resp symbol = none) ∧
    ("symbol" ∉ resp.infoKeys → get_stock_data resp symbol = none) ∧
    (resp.history = [] → get_stock_data resp symbol = none) := by
  refine ⟨fun h => ?_, fun h => ?_, fun h => ?_, fun h => ?_⟩ <;>
    simp [get_stock_data, h]

/-- Witness for C2: the three `NotFound` causes all produce `none` at
concrete inputs. -/
theorem get_stock_data_notFound_uniform_witness :
    get_stock_data ⟨true, ["symbol"], [1]⟩ "aapl" = none ∧
    get_stock_data ⟨false, [], [1]⟩ "aapl" = none ∧
    get_stock_data ⟨false, ["currency"], [1]⟩ "aapl" = none ∧
    get_stock_data ⟨false, ["symbol"], []⟩ "aapl" = none :=
  ⟨(get_stock_data_notFound_uniform ⟨true, ["symbol"], [1]⟩ "aapl").1 rfl,
   (get_stock_data_notFound_uniform ⟨false, [], [1]⟩ "aapl").2.1 rfl,
   (get_stock_data_notFound_uniform ⟨false, ["currency"], [1]⟩ "aapl").2.2.1
     (by decide),
   (get_stock_data_notFound_uniform ⟨false, ["symbol"], []⟩ "aapl").2.2.2 rfl⟩

/-- C9: for every index in the fixed table, the market summary carries
exactly the entry its own query produced — a failing index (exception or
empty history) is omitted while every succeeding index keeps its entry, so
one failure never fails the whole summary. -/
theorem get_market_summary_per_index (env : String → IndexResponse)
    (name sym : String) (hmem : (name, sym) ∈ marketIndices) :
    (get_market_summary env).lookup name = indexSummary (env sym) ∧
    (indexSummary (env sym) = none →
      ∀ e, (name, e) ∉ get_market_summary env) ∧
    (∀ e, indexSummary (env sym) = some e → (name, e) ∈ get_market_summary env) := by
  have hnd : (marketIndices.map Prod.fst).Nodup := by decide
  exact ⟨marketLoop_lookup_eq env name sym marketIndices hnd hmem,
    fun hnone e =>
      marketLoop_not_mem_of_none env name sym e marketIndices hnd hmem hnone,
    fun e hsome => marketLoop_mem_of_some env name sym e marketIndices hmem hsome⟩

/-- A concrete market-data behaviour: the S&P 500 query raises, every other
index answers with the two-row close history `[1, 2]`. -/
def gspcFailsEnv : String → IndexResponse :=
  fun s => if s = "^GSPC" then ⟨true, [1, 2]⟩ else ⟨false, [1, 2]⟩

/-- Witness for C9: under `gspcFailsEnv` the S&P 500 is omitted and the
NASDAQ entry is still present. -/
theorem get_market_summary_per_index_witness :
    ((get_market_summary gspcFailsEnv).lookup "S&P 500" = none) ∧
    (("NASDAQ", ⟨2, 1, Fl.val 100⟩) ∈ get_market_summary gspcFailsEnv) := by
  constructor
  · have h := get_market_summary_per_index gspcFailsEnv "S&P 500" "^GSPC" (by decide)
    rw [h.1]
    rfl
  · have h := get_market_summary_per_index gspcFailsEnv "NASDAQ" "^IXIC" (by decide)
    refine h.2.2 ⟨2, 1, Fl.val 100⟩ ?_
    show indexSummary ⟨false, [1, 2]⟩ = some ⟨2, 1, Fl.val 100⟩
    norm_num [indexSummary, flDiv, flMul100, List.getLastD]

/-- Counterexample to C10 as stated: a single-row history whose close is `0`
is still included, but its percent change is the `0.0/0.0` NaN artifact, not
exactly `0`. -/
theorem get_market_summary_single_row_counterexample :
    ("S&P 500", (⟨0, 0, Fl.nan⟩ : IndexEntry)) ∈
      get_market_summary (fun _ => ⟨false, [0]⟩) ∧ Fl.nan ≠ Fl.val 0 := by
  constructor
  · refine marketLoop_mem_of_some _ "S&P 500" "^GSPC" _ marketIndices
      (by decide) ?_
    show indexSummary ⟨false, [0]⟩ = _
    norm_num [indexSummary, flDiv, flMul100, List.getLastD]
  · decide

/-- C10 (amended): when an index's query succeeds with a single-row history,
`get_market_summary` still includes the index, using the current close as
its own previous value, so the change is exactly `0`; the percent change is
exactly `0` for a nonzero close, and the `0.0/0.0` NaN artifact for a zero
close. -/
theorem get_market_summary_single_row (env : String → IndexResponse)
    (name sym : String) (hmem : (name, sym) ∈ marketIndices) :
    (∀ c : ℚ, c ≠ 0 → env sym = ⟨false, [c]⟩ →
      (name, (⟨c, 0, Fl.val 0⟩ : IndexEntry)) ∈ get_market_summary env) ∧
    (env sym = ⟨false, [0]⟩ →
      (name, (⟨0, 0, Fl.nan⟩ : IndexEntry)) ∈ get_market_summary env) := by
  constructor
  · intro c hc henv
    refine marketLoop_mem_of_some env name sym _ marketIndices hmem ?_
    rw [henv]
    norm_num [indexSummary, flDiv, flMul100, List.getLastD, hc]
  · intro henv
    refine marketLoop_mem_of_some env name sym _ marketIndices hmem ?_
    rw [henv]
    norm_num [indexSummary, flDiv, flMul100, List.getLastD]

/-- Witness for C10: a Russell 2000 feed with the one-row history `[7]`
contributes the entry `(7, 0, 0)`, and one with the one-row history `[0]`
contributes `(0, 0, NaN)`. -/
theorem get_market_summary_single_row_witness :
    ("Russell 2000", (⟨7, 0, Fl.val 0⟩ : IndexEntry)) ∈
      get_market_summary (fun _ => ⟨false, [7]⟩) ∧
    ("Russell 2000", (⟨0, 0, Fl.nan⟩ : IndexEntry)) ∈
      get_market_summary (fun _ => ⟨false, [0]⟩) :=
  ⟨(get_market_summary_single_row (fun _ => ⟨false, [7]⟩) "Russell 2000" "^RUT"
      (by decide)).1 7 (by norm_num) rfl,
   (get_market_summary_single_row (fun _ => ⟨false, [0]⟩) "Russell 2000" "^RUT"
      (by decide)).2 rfl⟩

lemma takeWhile_append_all (p : Char → Bool) :
    ∀ a b : List Char, (∀ c ∈ a, p c = true) →
      (a ++ b).takeWhile p = a ++ b.takeWhile p := by
  intro a
  induction a with
  | nil => intro b _; simp
  | cons x xs ih =>
    intro b h
    have hx : p x = true := h x (List.mem_cons_self x xs)
    simp only [List.cons_append, List.takeWhile_cons, hx, if_true]
    rw [ih b (fun c hc => h c (List.mem_cons_of_mem x hc))]

lemma dropWhile_append_all (p : Char → Bool) :
    ∀ a b : List Char, (∀ c ∈ a, p c = true) →
      (a ++ b).dropWhile p = b.dropWhile p := by
  intro a
  induction a with
  | nil => intro b _; simp
  | cons x xs ih =>
    intro b h
    have hx : p x = true := h x (List.mem_cons_self x xs)
    simp only [List.cons_append, List.dropWhile_cons, hx, if_true]
    exact ih b (fun c hc => h c (List.mem_cons_of_mem x hc))

/-- The executable greedy matcher decides exactly the declarative regex
language of `^[A-Z]{1,5}(\.[A-Z]{1,2})?$`. -/
lemma matchesSymbolPattern_iff (cs : List Char) :
    matchesSymbolPattern cs = true ↔ SymbolRegexMatches cs := by
  constructor
  · intro h
    simp only [matchesSymbolPattern, Bool.and_eq_true, Bool.or_eq_true,
      decide_eq_true_eq, List.isEmpty_iff] at h
    obtain ⟨⟨h1, h5⟩, hrest⟩ := h
    refine ⟨cs.takeWhile isUpperAlpha, cs.dropWhile isUpperAlpha,
      (List.takeWhile_append_dropWhile isUpperAlpha cs).symm, h1, h5,
      fun c hc => List.mem_takeWhile_imp hc, ?_⟩
    rcases hrest with hnil | hdot
    · exact Or.inl hnil
    · obtain ⟨⟨⟨hhd, hall⟩, hlen1⟩, hlen2⟩ := hdot
      cases hds : cs.dropWhile isUpperAlpha with
      | nil => simp [hds] at hhd
      | cons c t =>
        rw [hds] at hhd hall hlen1 hlen2
        simp only [List.head?_cons, beq_iff_eq, Option.some.injEq] at hhd
        subst hhd
        exact Or.inr ⟨t, rfl, hlen1, hlen2,
          fun c hc => (List.all_eq_true.mp hall) c hc⟩
  · rintro ⟨a, b, rfl, h1, h5, hup, hb⟩
    have hdotFalse : isUpperAlpha '.' = false := rfl
    have htake : (a ++ b).takeWhile isUpperAlpha = a := by
      rcases hb with rfl | ⟨t, rfl, _, _, _⟩
      · rw [takeWhile_append_all isUpperAlpha a [] hup]
        simp
      · rw [takeWhile_append_all isUpperAlpha a ('.' :: t) hup]
        simp [List.takeWhile_cons, hdotFalse]
    have hdrop : (a ++ b).dropWhile isUpperAlpha = b := by
      rcases hb with rfl | ⟨t, rfl, _, _, _⟩
      · rw [dropWhile_append_all isUpperAlpha a [] hup]
        simp
      · rw [dropWhile_append_all isUpperAlpha a ('.' :: t) hup]
        simp [List.dropWhile_cons, hdotFalse]
    simp only [matchesSymbolPattern, htake, hdrop, Bool.and_eq_true,
      Bool.or_eq_true, decide_eq_true_eq, List.isEmpty_iff]
    refine ⟨⟨h1, h5⟩, ?_⟩
    rcases hb with rfl | ⟨t, rfl, hl1, hl2, hupt⟩
    · exact Or.inl rfl
    · exact Or.inr ⟨⟨⟨by simp, List.all_eq_true.mpr hupt⟩, by simpa using hl1⟩,
        by simpa using hl2⟩

/-- C7: `validate_symbol` is true exactly when the stripped, uppercased input
matches `^[A-Z]{1,5}(\.[A-Z]{1,2})?$`; in particular it accepts `"AAPL"`,
`"BRK.B"` and `"A"` and rejects `""`, `"toolong123"`, `"123"` and
`"AAPL.ABC"`. -/
theorem validate_symbol_spec :
    (∀ s : String, validate_symbol s = true ↔
      SymbolRegexMatches (pyUpper (pyStrip s.data))) ∧
    validate_symbol "AAPL" = true ∧ validate_symbol "BRK.B" = true ∧
    validate_symbol "A" = true ∧ validate_symbol "" = false ∧
    validate_symbol "toolong123" = false ∧ validate_symbol "123" = false ∧
    validate_symbol "AAPL.ABC" = false := by
  refine ⟨fun s => ?_, by decide, by decide, by decide, by decide, by decide,
    by decide, by decide⟩
  unfold validate_symbol
  by_cases hdata : s.data = []
  · rw [if_pos hdata, hdata]
    refine ⟨fun h => absurd h (by decide), fun hP => ?_⟩
    exfalso
    obtain ⟨a, b, hab, h1, -, -, -⟩ := hP
    have hnil : pyUpper (pyStrip ([] : List Char)) = [] := rfl
    rw [hnil] at hab
    have ha : a = [] := (List.append_eq_nil.mp hab.symm).1
    rw [ha] at h1
    exact absurd h1 (by simp)
  · rw [if_neg hdata]
    simp only [Bool.and_eq_true, decide_eq_true_eq]
    rw [matchesSymbolPattern_iff]
    constructor
    · exact fun h => h.1
    · intro h
      refine ⟨h, ?_⟩
      obtain ⟨a, b, hab, h1, -, -, -⟩ := h
      rw [hab]
      simp only [List.length_append]
      exact h1.trans (Nat.le_add_right _ _)

lemma char_ofNat_digit : ∀ k : ℕ, k < 10 → (Char.ofNat (48 + k)).isDigit = true := by
  decide

/-- `formatFix2` always renders a dot followed by exactly two decimal
digits. -/
lemma formatFix2_two_decimals (q : ℚ) :
    ∃ (pre : List Char) (d1 d2 : Char), (formatFix2 q).data = pre ++ ['.', d1, d2] ∧
      d1.isDigit = true ∧ d2.isDigit = true := by
  refine ⟨(if roundHalfEven (q * 100) < 0 then "-" else "").data ++
      (toString ((roundHalfEven (q * 100)).natAbs / 100)).data,
    Char.ofNat (48 + (roundHalfEven (q * 100)).natAbs % 100 / 10),
    Char.ofNat (48 + (roundHalfEven (q * 100)).natAbs % 100 % 10), ?_, ?_, ?_⟩
  · simp only [formatFix2, twoDigitStr]
    show (_ ++ _ ++ _ ++ _ : String).data = _
    simp only [String.data_append]
    simp [List.append_assoc]
  · exact char_ofNat_digit _ (by omega)
  · exact char_ofNat_digit _ (Nat.mod_lt _ (by norm_num))

/-- C8: `format_currency` maps `None`/NaN to `"N/A"` and otherwise scales by
magnitude with two decimals at the chosen scale: `≥ 1e9` renders in billions,
`≥ 1e6` in millions, `≥ 1e3` in thousands, the rest unscaled; in particular
`1 500 000 000 ↦ "$1.50B"`, `None ↦ "N/A"` and `0 ↦ "$0.00"`. -/
theorem format_currency_spec :
    format_currency .none = "N/A" ∧ format_currency .nan = "N/A" ∧
    format_currency (.num 1500000000) = "$1.50B" ∧
    format_currency (.num 0) = "$0.00" ∧
    (∀ v : ℚ, 1000000000 ≤ |v| →
      format_currency (.num v) = "$" ++ formatFix2 (v / 1000000000) ++ "B") ∧
    (∀ v : ℚ, 1000000 ≤ |v| → |v| < 1000000000 →
      format_currency (.num v) = "$" ++ formatFix2 (v / 1000000) ++ "M") ∧
    (∀ v : ℚ, 1000 ≤ |v| → |v| < 1000000 →
      format_currency (.num v) = "$" ++ formatFix2 (v / 1000) ++ "K") ∧
    (∀ v : ℚ, |v| < 1000 → format_currency (.num v) = "$" ++ formatFix2 v) ∧
    (∀ q : ℚ, ∃ (pre : List Char) (d1 d2 : Char),
      (formatFix2 q).data = pre ++ ['.', d1, d2] ∧
      d1.isDigit = true ∧ d2.isDigit = true) := by
  refine ⟨rfl, rfl, ?_, ?_, fun v hv => ?_, fun v hv1 hv2 => ?_,
    fun v hv1 hv2 => ?_, fun v hv => ?_, formatFix2_two_decimals⟩
  · have h : roundHalfEven ((1500000000 : ℚ) / 1000000000 * 100) = 150 := by
      norm_num [roundHalfEven]
    simp only [format_currency]
    rw [if_pos (by norm_num)]
    simp only [formatFix2, h]
    rfl
  · have h : roundHalfEven ((0 : ℚ) * 100) = 0 := by
      norm_num [roundHalfEven]
    simp only [format_currency]
    rw [if_neg (by norm_num), if_neg (by norm_num), if_neg (by norm_num)]
    simp only [formatFix2, h]
    rfl
  · simp only [format_currency]
    rw [if_pos hv]
  · simp only [format_currency]
    rw [if_neg (not_le.mpr hv2), if_pos hv1]
  · simp only [format_currency]
    rw [if_neg (not_le.mpr (hv2.trans_le (by norm_num))),
      if_neg (not_le.mpr hv2), if_pos hv1]
  · simp only [format_currency]
    rw [if_neg (not_le.mpr (hv.trans_le (by norm_num))),
      if_neg (not_le.mpr (hv.trans_le (by norm_num))), if_neg (not_le.mpr hv)]

lemma lossAt_eq_zero_of_no_loss (closes : List ℚ) (j : ℕ)
    (h : 1 ≤ j → j < closes.length → closes.getD (j - 1) 0 ≤ closes.getD j 0) :
    lossAt closes j = 0 := by
  unfold lossAt
  cases hd : diffAt closes j with
  | none => rfl
  | some d =>
    unfold diffAt at hd
    split at hd
    · exact absurd hd (by simp)
    · next hcond =>
      push_neg at hcond
      obtain ⟨hj0, hjlen⟩ := hcond
      have hd' : d = closes.getD j 0 - closes.getD (j - 1) 0 :=
        (Option.some.injEq .. ▸ hd).symm
      have hge : 0 ≤ d := by
        rw [hd']
        exact sub_nonneg.mpr (h (Nat.one_le_iff_ne_zero.mpr hj0) hjlen)
      simp [not_lt.mpr hge]

lemma avgGain_closes14 : avgGainAt closes14 13 = some (13 / 14) := by
  rw [avgGainAt, if_neg (by decide)]
  have hr : List.range 14 = [0, 1, 2, 3, 4, 5, 6, 7, 8, 9, 10, 11, 12, 13] := rfl
  rw [hr]
  norm_num [closes14, gainAt, diffAt, List.getD, List.sum_cons]

lemma avgLoss_closes14 : avgLossAt closes14 13 = some 0 := by
  rw [avgLossAt, if_neg (by decide)]
  have hr : List.range 14 = [0, 1, 2, 3, 4, 5, 6, 7, 8, 9, 10, 11, 12, 13] := rfl
  rw [hr]
  norm_num [closes14, lossAt, diffAt, List.getD, List.sum_cons]

lemma avgGain_flat14 : avgGainAt flat14 13 = some 0 := by
  rw [avgGainAt, if_neg (by decide)]
  have hr : List.range 14 = [0, 1, 2, 3, 4, 5, 6, 7, 8, 9, 10, 11, 12, 13] := rfl
  rw [hr]
  norm_num [flat14, gainAt, diffAt, List.getD, List.sum_cons]

/-- Counterexample to C1 as stated: the no-loss window `[1, …, 14]` does NOT
leave the RSI undefined — the pandas float division `gain/0` is `+inf` and
`100 - 100/(1 + inf)` is the perfectly defined value `100`. -/
theorem rsi_no_loss_defined_counterexample :
    rsiAt closes14 13 = Fl.val 100 ∧ Fl.val 100 ≠ Fl.nan := by
  constructor
  · rw [rsiAt, rsAt, avgGain_closes14, avgLoss_closes14]
    simp only []
    rw [flDiv, if_pos rfl, if_neg (by norm_num), if_pos (by norm_num)]
    rfl
  · decide

/-- C1 (amended): at a position whose trailing 14-day window holds no losing
day the 14-day average loss is zero and `rs = gain/loss` divides by zero,
but under the code's float semantics the RSI is the defined deterministic
value `100` whenever the window's average gain is nonzero (`gain/0 = +inf`);
only the entirely flat window (`0/0`) yields the undefined NaN artifact. -/
theorem rsi_no_loss_window_spec (closes : List ℚ) (i : ℕ)
    (h13 : 13 ≤ i) (hlen : i < closes.length)
    (hmono : ∀ j, i - 13 ≤ j → j ≤ i → 1 ≤ j →
      closes.getD (j - 1) 0 ≤ closes.getD j 0) :
    avgLossAt closes i = some 0 ∧
    (avgGainAt closes i = some 0 → rsiAt closes i = Fl.nan) ∧
    (∀ g : ℚ, avgGainAt closes i = some g → g ≠ 0 →
      rsiAt closes i = Fl.val 100) := by
  have hguard : ¬(i + 1 < 14 ∨ closes.length ≤ i) := by
    push_neg
    exact ⟨by omega, hlen⟩
  have hloss : avgLossAt closes i = some 0 := by
    unfold avgLossAt
    rw [if_neg hguard]
    have hsum : ((List.range 14).map (fun k => lossAt closes (i - 13 + k))).sum = 0 := by
      apply List.sum_eq_zero
      intro x hx
      obtain ⟨k, hk, rfl⟩ := List.mem_map.mp hx
      have hk14 : k < 14 := List.mem_range.mp hk
      refine lossAt_eq_zero_of_no_loss closes (i - 13 + k) (fun h1 _ => ?_)
      exact hmono (i - 13 + k) (Nat.le_add_right _ _) (by omega) h1
    rw [hsum]
    norm_num
  refine ⟨hloss, fun hg => ?_, fun g hg hgne => ?_⟩
  · rw [rsiAt, rsAt, hg, hloss]
    simp only []
    rw [flDiv, if_pos rfl, if_pos rfl]
    rfl
  · rw [rsiAt, rsAt, hg, hloss]
    simp only []
    rw [flDiv, if_pos rfl, if_neg hgne]
    by_cases hgpos : 0 < g
    · rw [if_pos hgpos]
      rfl
    · rw [if_neg hgpos]
      rfl

/-- Witness for C1: the rising closes `[1, …, 14]` (average gain `13/14 ≠ 0`)
give RSI `100`, and the flat closes `[5, …, 5]` give the NaN artifact. -/
theorem rsi_no_loss_window_spec_witness :
    rsiAt closes14 13 = Fl.val 100 ∧ rsiAt flat14 13 = Fl.nan := by
  constructor
  · exact (rsi_no_loss_window_spec closes14 13 (by decide) (by decide)
      (by intro j h1 h2 h3; interval_cases j <;> decide)).2.2 (13 / 14)
      avgGain_closes14 (by norm_num)
  · exact (rsi_no_loss_window_spec flat14 13 (by decide) (by decide)
      (by intro j h1 h2 h3; interval_cases j <;> decide)).2.1 avgGain_flat14

/-- C5: on empty (or too-short) price input every summary statistic returns
its explicit no-data sentinel — an empty returns series, NaN (`none`) for
volatility, Sharpe ratio and max drawdown, `"Insufficient Data"` for the
trend — and never a number masquerading as data (the functions are total, so
no exception is possible). -/
theorem summary_stats_empty_sentinels :
    calculate_returns [] = [] ∧
    (∀ p : ℚ, calculate_returns [p] = []) ∧
    (∀ periods : ℕ, calculate_volatility [] periods = none) ∧
    (∀ r : ℚ, ∀ periods : ℕ, calculate_volatility [r] periods = none) ∧
    (∀ rf : ℚ, ∀ periods : ℕ, calculate_sharpe_ratio [] rf periods = none) ∧
    (∀ r rf : ℚ, ∀ periods : ℕ, calculate_sharpe_ratio [r] rf periods = none) ∧
    calculate_max_drawdown [] = none ∧
    (∀ (prices : List ℚ) (window : ℕ), prices.length < window →
      determine_trend prices window = "Insufficient Data") := by
  refine ⟨rfl, fun p => rfl, fun periods => rfl, fun r periods => rfl,
    fun rf periods => rfl, fun r rf periods => rfl, rfl,
    fun prices window h => ?_⟩
  unfold determine_trend
  rw [if_pos h]

/-- Witness for C5: a three-point series is too short for the trend's
20-point window. -/
theorem summary_stats_empty_sentinels_witness :
    determine_trend [1, 2, 3] 20 = "Insufficient Data" :=
  summary_stats_empty_sentinels.2.2.2.2.2.2.2 [1, 2, 3] 20 (by decide)

/-! ### Max drawdown (C4) -/

/-- Accumulator form of the drawdown minimum: `m` is the running maximum so
far and `best` the smallest drawdown seen so far. -/
def mddAux (m best : ℚ) : List ℚ → ℚ
  | [] => best
  | p :: rest => mddAux (max m p) (min best ((p - max m p) / max m p)) rest

lemma mddAux_le_best (l : List ℚ) : ∀ m best : ℚ, mddAux m best l ≤ best := by
  induction l with
  | nil => intro m best; exact le_refl best
  | cons p rest ih =>
    intro m best
    exact (ih (max m p) _).trans (min_le_left _ _)

lemma foldl_min_zip_eq_mddAux (l : List ℚ) :
    ∀ m best : ℚ,
      ((l.zip (expandingMaxFrom m l)).map (fun pm => (pm.1 - pm.2) / pm.2)).foldl
        min best = mddAux m best l := by
  induction l with
  | nil => intro m best; rfl
  | cons p rest ih =>
    intro m best
    simp only [expandingMaxFrom, List.zip_cons_cons, List.map_cons, List.foldl_cons]
    exact ih (max m p) _

lemma calculate_max_drawdown_cons (p : ℚ) (rest : List ℚ) :
    calculate_max_drawdown (p :: rest) = some (mddAux p 0 rest) := by
  have hmin : ∀ (x : ℚ) (xs : List ℚ), (x :: xs).min? = some (xs.foldl min x) :=
    fun x xs => rfl
  simp only [calculate_max_drawdown, expandingMax, List.zip_cons_cons,
    List.map_cons, hmin, sub_self, zero_div]
  rw [foldl_min_zip_eq_mddAux]

lemma mddAux_eq_best_of_chain (l : List ℚ) :
    ∀ m best : ℚ, best ≤ 0 → List.Chain (· ≤ ·) m l → mddAux m best l = best := by
  induction l with
  | nil => intro m best _ _; rfl
  | cons p rest ih =>
    intro m best hbest hchain
    rw [List.chain_cons] at hchain
    obtain ⟨hmp, hrest⟩ := hchain
    have hmax : max m p = p := max_eq_right hmp
    simp only [mddAux, hmax, sub_self, zero_div, min_eq_left hbest]
    exact ih p best hbest hrest

lemma mddAux_neg_of_not_chain (l : List ℚ) :
    ∀ m best : ℚ, 0 < m → ¬ List.Chain (· ≤ ·) m l → mddAux m best l < 0 := by
  induction l with
  | nil => intro m best _ hchain; exact absurd List.Chain.nil hchain
  | cons p rest ih =>
    intro m best hm hchain
    rw [List.chain_cons] at hchain
    push_neg at hchain
    by_cases hmp : m ≤ p
    · have hmax : max m p = p := max_eq_right hmp
      simp only [mddAux, hmax, sub_self, zero_div]
      exact ih p _ (hm.trans_le hmp) (hchain hmp)
    · have hpm : p < m := not_le.mp hmp
      have hmax : max m p = m := max_eq_left hpm.le
      simp only [mddAux, hmax]
      have hd : (p - m) / m < 0 :=
        div_neg_of_neg_of_pos (sub_neg.mpr hpm) hm
      exact (mddAux_le_best rest _ _).trans_lt
        ((min_le_right _ _).trans_lt hd)

/-- C4: the maximum drawdown of a non-empty positive price series is `≤ 0`,
and is `0` exactly when the series never decreases; an empty series gives the
NaN sentinel. -/
theorem calculate_max_drawdown_spec (prices : List ℚ) (hne : prices ≠ [])
    (hpos : ∀ x ∈ prices, 0 < x) :
    calculate_max_drawdown [] = none ∧
    ∃ d : ℚ, calculate_max_drawdown prices = some d ∧ d ≤ 0 ∧
      (d = 0 ↔ List.Chain' (· ≤ ·) prices) := by
  refine ⟨rfl, ?_⟩
  obtain ⟨p, rest, rfl⟩ := List.exists_cons_of_ne_nil hne
  refine ⟨mddAux p 0 rest, calculate_max_drawdown_cons p rest,
    (mddAux_le_best rest p 0), ?_⟩
  have hchain : List.Chain' (· ≤ ·) (p :: rest) ↔ List.Chain (· ≤ ·) p rest :=
    Iff.rfl
  rw [hchain]
  constructor
  · intro h0
    by_contra hnc
    exact absurd h0
      (mddAux_neg_of_not_chain rest p 0
        (hpos p (List.mem_cons_self p rest)) hnc).ne
  · intro hc
    exact mddAux_eq_best_of_chain rest p 0 (le_refl 0) hc

/-- Witness for C4: the falling series `[2, 1]` has drawdown `-1/2 ≤ 0` and
is not monotone; the concrete minimum is `-1/2`. -/
theorem calculate_max_drawdown_spec_witness :
    (∃ d : ℚ, calculate_max_drawdown [2, 1] = some d ∧ d ≤ 0 ∧
      (d = 0 ↔ List.Chain' (· ≤ ·) ([2, 1] : List ℚ))) ∧
    calculate_max_drawdown [2, 1] = some (-(1 / 2)) := by
  constructor
  · exact (calculate_max_drawdown_spec [2, 1] (by decide) (by decide)).2
  · rw [calculate_max_drawdown_cons]
    norm_num [mddAux]

/-- Witness for C8: the magnitude ladder at concrete inputs — `2 500 000`
scales to millions and `999` stays unscaled. -/
theorem format_currency_spec_witness :
    format_currency (.num 2500000) = "$2.50M" ∧
    format_currency (.num 999) = "$999.00" := by
  constructor
  · have h := format_currency_spec.2.2.2.2.2.1 2500000 (by norm_num) (by norm_num)
    rw [h]
    have hr : roundHalfEven ((2500000 : ℚ) / 1000000 * 100) = 250 := by
      norm_num [roundHalfEven]
    simp only [formatFix2, hr]
    rfl
  · have h := format_currency_spec.2.2.2.2.2.2.2.1 999 (by norm_num)
    rw [h]
    have hr : roundHalfEven ((999 : ℚ) * 100) = 99900 := by
      norm_num [roundHalfEven]
    simp only [formatFix2, hr]
    rfl

/-! ### Trend classification (C3) -/

/-- The synthetic 30-point price series that strictly increases by 1 each
day. -/
def upward30 : List ℚ :=
  [1, 2, 3, 4, 5, 6, 7, 8, 9, 10, 11, 12, 13, 14, 15, 16, 17, 18, 19, 20,
   21, 22, 23, 24, 25, 26, 27, 28, 29, 30]

/-- C3: the trend label compares the latest 20-point moving average against
the one half a window back with a ±2% threshold, yielding
`"Insufficient Data"` below 20 points; the canonical 30-point
rising-by-1 series classifies `"Upward"`, its reversal `"Downward"`, and a
constant positive series `"Sideways"`. -/
theorem determine_trend_spec :
    (∀ (prices : List ℚ) (window : ℕ), prices.length < window →
      determine_trend prices window = "Insufficient Data") ∧
    determine_trend upward30 20 = "Upward" ∧
    determine_trend upward30.reverse 20 = "Downward" ∧
    (∀ c : ℚ, 0 < c → determine_trend (List.replicate 30 c) 20 = "Sideways") := by
  refine ⟨fun prices window h => ?_, ?_, ?_, fun c hc => ?_⟩
  · unfold determine_trend
    rw [if_pos h]
  · have hcur : rollingMean upward30 20 29 = some (41 / 2) := by
      rw [rollingMean, if_neg (by norm_num [upward30])]
      have h2 : (upward30.drop (29 + 1 - 20)).take 20 =
          [11, 12, 13, 14, 15, 16, 17, 18, 19, 20,
           21, 22, 23, 24, 25, 26, 27, 28, 29, 30] := by rfl
      rw [h2]
      norm_num [List.sum_cons]
    have hprev : rollingMean upward30 20 20 = some (23 / 2) := by
      rw [rollingMean, if_neg (by norm_num [upward30])]
      have h2 : (upward30.drop (20 + 1 - 20)).take 20 =
          [2, 3, 4, 5, 6, 7, 8, 9, 10, 11,
           12, 13, 14, 15, 16, 17, 18, 19, 20, 21] := by rfl
      rw [h2]
      norm_num [List.sum_cons]
    have hlen : upward30.length = 30 := rfl
    rw [determine_trend, hlen, if_neg (by norm_num)]
    have hi1 : (30 : ℕ) - 1 = 29 := rfl
    have hi2 : (30 : ℕ) - (20 + 1) / 2 = 20 := rfl
    rw [hi1, hi2, hcur, hprev]
    simp only []
    rw [if_pos (by norm_num)]
  · have hrev : upward30.reverse =
        [30, 29, 28, 27, 26, 25, 24, 23, 22, 21, 20, 19, 18, 17, 16, 15, 14,
         13, 12, 11, 10, 9, 8, 7, 6, 5, 4, 3, 2, 1] := by rfl
    rw [hrev]
    have hcur : rollingMean
        [30, 29, 28, 27, 26, 25, 24, 23, 22, 21, 20, 19, 18, 17, 16, 15, 14,
         13, 12, 11, 10, 9, 8, 7, 6, 5, 4, 3, 2, 1] 20 29 = some (21 / 2) := by
      rw [rollingMean, if_neg (by norm_num)]
      have h2 : (([30, 29, 28, 27, 26, 25, 24, 23, 22, 21, 20, 19, 18, 17, 16,
          15, 14, 13, 12, 11, 10, 9, 8, 7, 6, 5, 4, 3, 2, 1] : List ℚ).drop
            (29 + 1 - 20)).take 20 =
          [20, 19, 18, 17, 16, 15, 14, 13, 12, 11, 10, 9, 8, 7, 6, 5, 4, 3, 2, 1] := by
        rfl
      rw [h2]
      norm_num [List.sum_cons]
    have hprev : rollingMean
        [30, 29, 28, 27, 26, 25, 24, 23, 22, 21, 20, 19, 18, 17, 16, 15, 14,
         13, 12, 11, 10, 9, 8, 7, 6, 5, 4, 3, 2, 1] 20 20 = some (39 / 2) := by
      rw [rollingMean, if_neg (by norm_num)]
      have h2 : (([30, 29, 28, 27, 26, 25, 24, 23, 22, 21, 20, 19, 18, 17, 16,
          15, 14, 13, 12, 11, 10, 9, 8, 7, 6, 5, 4, 3, 2, 1] : List ℚ).drop
            (20 + 1 - 20)).take 20 =
          [29, 28, 27, 26, 25, 24, 23, 22, 21, 20, 19, 18, 17, 16, 15, 14, 13,
           12, 11, 10] := by rfl
      rw [h2]
      norm_num [List.sum_cons]
    rw [determine_trend]
    have hlen : ([30, 29, 28, 27, 26, 25, 24, 23, 22, 21, 20, 19, 18, 17, 16,
        15, 14, 13, 12, 11, 10, 9, 8, 7, 6, 5, 4, 3, 2, 1] : List ℚ).length = 30 := rfl
    rw [hlen, if_neg (by norm_num)]
    have hi1 : (30 : ℕ) - 1 = 29 := rfl
    have hi2 : (30 : ℕ) - (20 + 1) / 2 = 20 := rfl
    rw [hi1, hi2, hcur, hprev]
    simp only []
    rw [if_neg (by norm_num), if_pos (by norm_num)]
  · have hlen : (List.replicate 30 c).length = 30 := by
      rw [List.length_replicate]
    have hcur : rollingMean (List.replicate 30 c) 20 29 = some c := by
      rw [rollingMean, if_neg (by rw [hlen]; norm_num)]
      have h2 : ((List.replicate 30 c).drop (29 + 1 - 20)).take 20 =
          List.replicate 20 c := by rfl
      rw [h2, List.sum_replicate]
      congr 1
      rw [nsmul_eq_mul]
      norm_num
    have hprev : rollingMean (List.replicate 30 c) 20 20 = some c := by
      rw [rollingMean, if_neg (by rw [hlen]; norm_num)]
      have h2 : ((List.replicate 30 c).drop (20 + 1 - 20)).take 20 =
          List.replicate 20 c := by rfl
      rw [h2, List.sum_replicate]
      congr 1
      rw [nsmul_eq_mul]
      norm_num
    rw [determine_trend, hlen, if_neg (by norm_num)]
    have hi1 : (30 : ℕ) - 1 = 29 := rfl
    have hi2 : (30 : ℕ) - (20 + 1) / 2 = 20 := rfl
    rw [hi1, hi2, hcur, hprev]
    simp only []
    rw [if_neg (by norm_num), if_neg (by norm_num)]

/-- Witness for C3: a constant positive series is `"Sideways"` and a short
series is `"Insufficient Data"`. -/
theorem determine_trend_spec_witness :
    determine_trend (List.replicate 30 (5 : ℚ)) 20 = "Sideways" ∧
    determine_trend [1] 20 = "Insufficient Data" :=
  ⟨determine_trend_spec.2.2.2 5 (by norm_num),
   determine_trend_spec.1 [1] 20 (by decide)⟩

/-! ### Bollinger bands (C6) -/

/-- C6: wherever both Bollinger bands are defined, the upper band is at least
the lower band, with equality exactly when the trailing 20-period standard
deviation is zero. -/
theorem bollinger_upper_ge_lower (closes : List ℚ) (i : ℕ) (u l : ℝ)
    (hu : bollingerUpper closes i = some u)
    (hl : bollingerLower closes i = some l) :
    l ≤ u ∧ (u = l ↔ rollingStd closes 20 i = some 0) := by
  cases hm : rollingMean closes 20 i with
  | none =>
    simp only [bollingerUpper, hm] at hu
    exact absurd hu (by simp)
  | some m =>
    cases hv : rollingVariance closes 20 i with
    | none =>
      have hstd : rollingStd closes 20 i = none := by rw [rollingStd, hv]; rfl
      simp only [bollingerUpper, hm, hstd] at hu
      exact absurd hu (by simp)
    | some v =>
      have hstd : rollingStd closes 20 i = some (Real.sqrt (v : ℝ)) := by
        rw [rollingStd, hv]
        rfl
      simp only [bollingerUpper, hm, hstd, Option.some.injEq] at hu
      simp only [bollingerLower, hm, hstd, Option.some.injEq] at hl
      subst hu
      subst hl
      have hs : 0 ≤ Real.sqrt (v : ℝ) := Real.sqrt_nonneg _
      refine ⟨by linarith, ?_⟩
      rw [hstd]
      simp only [Option.some.injEq]
      constructor
      · intro h
        linarith
      · intro h
        rw [h]
        ring

/-- Twenty constant closes: the Bollinger window whose standard deviation is
zero. -/
def ones20 : List ℚ :=
  [1, 1, 1, 1, 1, 1, 1, 1, 1, 1, 1, 1, 1, 1, 1, 1, 1, 1, 1, 1]

/-- Witness for C6: on twenty constant closes both bands equal the moving
average and the trailing standard deviation is zero. -/
theorem bollinger_upper_ge_lower_witness :
    (1 : ℝ) ≤ 1 ∧ ((1 : ℝ) = 1 ↔ rollingStd ones20 20 19 = some 0) := by
  have hm : rollingMean ones20 20 19 = some 1 := by
    rw [rollingMean, if_neg (by norm_num [ones20])]
    norm_num [ones20, List.sum_cons]
  have hv : rollingVariance ones20 20 19 = some 0 := by
    rw [rollingVariance, if_neg (by norm_num [ones20])]
    norm_num [ones20, List.sum_cons]
  have hstd : rollingStd ones20 20 19 = some 0 := by
    rw [rollingStd, hv]
    simp
  have hu : bollingerUpper ones20 19 = some 1 := by
    simp only [bollingerUpper, hm, hstd]
    norm_num
  have hl : bollingerLower ones20 19 = some 1 := by
    simp only [bollingerLower, hm, hstd]
    norm_num
  exact bollinger_upper_ge_lower ones20 19 1 1 hu hl

end StockAnalysis
